import Mathlib

/-!
Verification of the vertex-codec core of the mesh quantization pipeline:
normalization (min-max and unit-sphere), quantization to an integer
lattice, dequantization, denormalization, and the round-trip error
metrics.

The embedding models IEEE double arithmetic by exact arithmetic: the
min-max path and the quantizer are stated over `ℚ` (fully computable);
the unit-sphere path and the error metrics take square roots, so they
live over `ℝ`.  Integer lattices are `ℤ`-valued (the `int32` cast of the
source is exact on every value the pipeline produces).
-/

/-- A 3-component point, one coordinate per axis (a row of an `(N, 3)`
numpy array). -/
abbrev Vec3 (α : Type) := Fin 3 → α

/-- The all-zero point, used as the out-of-range default of `List.getD`. -/
def zero3 (α : Type) [Zero α] : Vec3 α := fun _ => 0

/-- Normalization method selector: the `'minmax'` / `'sphere'` strings of
the source, as a closed enumeration. -/
inductive Method
  | minmax
  | sphere
deriving DecidableEq

/-- Error kinds of the codec (each is a `ValueError` in the source). -/
inductive Err
  | shape
  | methodMismatch
  | range
  | unknownMethod
deriving DecidableEq

/-- `np.min` of a flat array; `0` on the empty array (numpy raises there,
and every use below is guarded by non-emptiness). -/
def listMin {α : Type} [LinearOrder α] [Zero α] : List α → α
  | [] => 0
  | x :: xs => xs.foldl min x

/-- `np.max` of a flat array; `0` on the empty array (numpy raises there,
and every use below is guarded by non-emptiness). -/
def listMax {α : Type} [LinearOrder α] [Zero α] : List α → α
  | [] => 0
  | x :: xs => xs.foldl max x

/-- `vertices.min(axis=0)`: per-axis minimum over all points. -/
def axisMin (V : List (Vec3 ℚ)) (a : Fin 3) : ℚ :=
  listMin (V.map (fun v => v a))

/-- `vertices.max(axis=0)`: per-axis maximum over all points. -/
def axisMax (V : List (Vec3 ℚ)) (a : Fin 3) : ℚ :=
  listMax (V.map (fun v => v a))

/-- `range_per_axis` after the `range_per_axis[range_per_axis == 0] = 1.0`
substitution of `norm_minmax`. -/
def rangeSubst (V : List (Vec3 ℚ)) (a : Fin 3) : ℚ :=
  if axisMax V a - axisMin V a = 0 then 1 else axisMax V a - axisMin V a

/-- Core of `norm_minmax` (after the shape guard):
`normalized = (vertices - v_min) / range_per_axis`. -/
def normMinmaxCore (V : List (Vec3 ℚ)) : List (Vec3 ℚ) :=
  V.map (fun v a => (v a - axisMin V a) / rangeSubst V a)

/-- Core of `denorm_minmax` (after the guards):
`reconstructed = normalized * (v_max - v_min) + v_min`. -/
def denormMinmaxCore (normalized : List (Vec3 ℚ)) (vmin vmax : Vec3 ℚ) :
    List (Vec3 ℚ) :=
  normalized.map (fun n a => n a * (vmax a - vmin a) + vmin a)

/-- `vertices.mean(axis=0)`: the centroid of `norm_sphere`. -/
def center (V : List (Vec3 ℚ)) (a : Fin 3) : ℚ :=
  (V.map (fun v => v a)).sum / (V.length : ℚ)

/-- Squared Euclidean distance from `c` to `v` (the square of one entry of
`np.linalg.norm(shifted, axis=1)`). -/
def distSq (c v : Vec3 ℚ) : ℚ :=
  (v 0 - c 0) ^ 2 + (v 1 - c 1) ^ 2 + (v 2 - c 2) ^ 2

/-- The square of `scale = np.max(distances)` in `norm_sphere`, before the
zero substitution.  Kept over `ℚ` (squares avoid the square root), so it is
computable and decidable. -/
def scaleSq (V : List (Vec3 ℚ)) : ℚ :=
  listMax (V.map (fun v => distSq (center V) v))

/-- `scale` of `norm_sphere` after the `if scale == 0: scale = 1.0`
substitution; this is also the value stored in the parameter record. -/
noncomputable def sphereScale (V : List (Vec3 ℚ)) : ℝ :=
  if scaleSq V = 0 then 1 else Real.sqrt (scaleSq V)

/-- Core of `norm_sphere` (after the shape guard):
`normalized = (vertices - center) / scale`. -/
noncomputable def normSphereCore (V : List (Vec3 ℚ)) : List (Vec3 ℝ) :=
  V.map (fun v a => ((v a : ℝ) - (center V a : ℝ)) / sphereScale V)

/-- Core of `denorm_sphere` (after the guards):
`reconstructed = normalized * scale + center`. -/
noncomputable def denormSphereCore (normalized : List (Vec3 ℝ))
    (c : Vec3 ℚ) (s : ℝ) : List (Vec3 ℝ) :=
  normalized.map (fun n a => n a * s + (c a : ℝ))

/-- The `ndim == 2 and shape[1] == 3` guard of the source on list-of-rows
data: a list of points passes iff it is non-empty and every point has
exactly 3 components (an empty list has `ndim == 1` in numpy and fails,
and a ragged one never forms a 2-d array). -/
def shapeOk (vs : List (List ℚ)) : Bool :=
  !vs.isEmpty && vs.all (fun p => p.length == 3)

/-- View a validated 3-component row as a `Vec3`. -/
def toVec3 (p : List ℚ) : Vec3 ℚ := fun a => p.getD a 0

/-- View a validated list of rows as a list of `Vec3`. -/
def toVerts (vs : List (List ℚ)) : List (Vec3 ℚ) := vs.map toVec3

/-- The tagged parameter record returned by the normalizers: the
`{'method': ..., ...}` dict of the source as a tagged union. -/
inductive NormParams
  | mm (v_min v_max : Vec3 ℚ)
  | sp (c : Vec3 ℚ) (scale : ℝ)

/-- The method tag of a parameter record (`params['method']`). -/
def NormParams.method : NormParams → Method
  | .mm _ _ => .minmax
  | .sp _ _ => .sphere

/-- `norm_minmax` with its shape guard: raises `ShapeError` exactly when
the input is not a non-empty sequence of 3-component points. -/
def norm_minmax (vs : List (List ℚ)) :
    Except Err (List (Vec3 ℚ) × NormParams) :=
  if shapeOk vs then
    .ok (normMinmaxCore (toVerts vs),
         .mm (axisMin (toVerts vs)) (axisMax (toVerts vs)))
  else .error .shape

/-- `norm_sphere` with its shape guard. -/
noncomputable def norm_sphere (vs : List (List ℚ)) :
    Except Err (List (Vec3 ℝ) × NormParams) :=
  if shapeOk vs then
    .ok (normSphereCore (toVerts vs),
         .sp (center (toVerts vs)) (sphereScale (toVerts vs)))
  else .error .shape

/-- `denorm_minmax`: checks `params['method'] != 'minmax'` first and
raises the method-mismatch error there. -/
def denorm_minmax (normalized : List (Vec3 ℚ)) (params : NormParams) :
    Except Err (List (Vec3 ℚ)) :=
  match params with
  | .mm vmin vmax => .ok (denormMinmaxCore normalized vmin vmax)
  | .sp _ _ => .error .methodMismatch

/-- `denorm_sphere`: checks `params['method'] != 'sphere'` first and
raises the method-mismatch error there. -/
noncomputable def denorm_sphere (normalized : List (Vec3 ℝ))
    (params : NormParams) : Except Err (List (Vec3 ℝ)) :=
  match params with
  | .sp c s => .ok (denormSphereCore normalized c s)
  | .mm _ _ => .error .methodMismatch

/-- `quantize(normalized, bins, method)`:
`q = np.floor(normalized01 * (bins - 1))` then `np.clip(q, 0, bins - 1)`;
for the sphere method the input is first remapped by `(x + 1) / 2`.
Generic in the scalar field so that the same code path applies to the
`ℚ`-valued min-max chain and the `ℝ`-valued sphere chain. -/
def quantize {α : Type} [LinearOrderedField α] [FloorRing α]
    (normalized : List (Vec3 α)) (bins : ℕ) (m : Method) :
    List (Vec3 ℤ) :=
  normalized.map (fun v a =>
    let x01 : α := match m with
      | .minmax => v a
      | .sphere => (v a + 1) / 2
    min ((bins : ℤ) - 1) (max 0 ⌊x01 * ((bins : α) - 1)⌋))

/-- `dequantize(q, bins, method)`:
`dequantized01 = q / (bins - 1)`, then for the sphere method remapped by
`* 2 - 1`. -/
def dequantize {α : Type} [LinearOrderedField α]
    (q : List (Vec3 ℤ)) (bins : ℕ) (m : Method) : List (Vec3 α) :=
  q.map (fun v a =>
    let d01 : α := (v a : α) / ((bins : α) - 1)
    match m with
    | .minmax => d01
    | .sphere => d01 * 2 - 1)

/-- The `q_min < 0 or q_max >= BINS` invariant check of
`process_mesh_file` (the `RangeError` branch), phrased per entry. -/
def rangeViolation (q : List (Vec3 ℤ)) (bins : ℕ) : Bool :=
  q.any (fun v =>
    (List.finRange 3).any (fun a =>
      decide (v a < 0) || decide ((bins : ℤ) ≤ v a)))

/-- The record produced by `compute_errors` (the plotting-only
`per_vertex_abs_error` array aside). -/
structure ErrorReport where
  mse_total : ℝ
  mae_total : ℝ
  mse_per_axis : Vec3 ℝ
  mae_per_axis : Vec3 ℝ
  max_error : ℝ
  min_error : ℝ
  std_error : ℝ
  per_vertex_error : List ℝ

/-- `np.mean` of a flat array: sum over size. -/
noncomputable def listMean (l : List ℝ) : ℝ := l.sum / (l.length : ℝ)

/-- Core of `compute_errors` (after the shape guard):
`diff = original - reconstructed`, total and per-axis means of `diff²`
and `|diff|`, per-vertex Euclidean errors, and their max, min, and
population standard deviation (`np.std`). -/
noncomputable def computeErrorsCore (original reconstructed : List (Vec3 ℝ)) :
    ErrorReport :=
  let diff := List.zipWith (fun o r => (fun a => o a - r a : Vec3 ℝ))
    original reconstructed
  let entries := (diff.map (fun d => [d 0, d 1, d 2])).flatten
  let pve := diff.map (fun d => Real.sqrt (d 0 ^ 2 + d 1 ^ 2 + d 2 ^ 2))
  ⟨listMean (entries.map (fun t => t ^ 2)),
   listMean (entries.map (fun t => |t|)),
   fun a => listMean (diff.map (fun d => d a ^ 2)),
   fun a => listMean (diff.map (fun d => |d a|)),
   listMax pve,
   listMin pve,
   Real.sqrt (listMean (pve.map (fun x => (x - listMean pve) ^ 2))),
   pve⟩

/-- `compute_errors` with its `original.shape != reconstructed.shape`
guard (widths are fixed at 3 by typing, so the guard is on lengths). -/
noncomputable def compute_errors (original reconstructed : List (Vec3 ℝ)) :
    Except Err ErrorReport :=
  if original.length = reconstructed.length then
    .ok (computeErrorsCore original reconstructed)
  else .error .shape

/-- A small concrete vertex set used to instantiate the universally
quantified theorems below. -/
def Vdemo : List (Vec3 ℚ) := [![0, 0, 0], ![2, 2, 2]]

/-- The concrete vertex set of the spec scenario:
`[(0,0,0), (1,1,1), (2,0.5,1.5), (-1,2,0.5)]`. -/
def V7 : List (Vec3 ℚ) := [![0, 0, 0], ![1, 1, 1], ![2, 1/2, 3/2], ![-1, 2, 1/2]]

/-- A fully degenerate one-point vertex set (every axis flat, zero scale),
used to instantiate the degenerate-geometry theorem. -/
def Vdeg : List (Vec3 ℚ) := [![1, 2, 3]]

/-! ### List helper lemmas -/

lemma foldl_min_le_init {α : Type} [LinearOrder α] (l : List α) (i : α) :
    l.foldl min i ≤ i := by
  induction l generalizing i with
  | nil => exact le_refl i
  | cons x xs ih => exact le_trans (ih (min i x)) (min_le_left i x)

lemma foldl_min_le_mem {α : Type} [LinearOrder α] {l : List α} {x : α}
    (hx : x ∈ l) (i : α) : l.foldl min i ≤ x := by
  induction l generalizing i with
  | nil => cases hx
  | cons y ys ih =>
    rcases List.mem_cons.mp hx with h | h
    · subst h
      exact le_trans (foldl_min_le_init ys (min i x)) (min_le_right i x)
    · exact ih h (min i y)

lemma listMin_le {α : Type} [LinearOrder α] [Zero α] {l : List α} {x : α}
    (hx : x ∈ l) : listMin l ≤ x := by
  match l with
  | [] => cases hx
  | y :: ys =>
    simp only [listMin]
    rcases List.mem_cons.mp hx with h | h
    · subst h; exact foldl_min_le_init ys x
    · exact foldl_min_le_mem h y

lemma init_le_foldl_max {α : Type} [LinearOrder α] (l : List α) (i : α) :
    i ≤ l.foldl max i := by
  induction l generalizing i with
  | nil => exact le_refl i
  | cons x xs ih => exact le_trans (le_max_left i x) (ih (max i x))

lemma mem_le_foldl_max {α : Type} [LinearOrder α] {l : List α} {x : α}
    (hx : x ∈ l) (i : α) : x ≤ l.foldl max i := by
  induction l generalizing i with
  | nil => cases hx
  | cons y ys ih =>
    rcases List.mem_cons.mp hx with h | h
    · subst h
      exact le_trans (le_max_right i x) (init_le_foldl_max ys (max i x))
    · exact ih h (max i y)

lemma le_listMax {α : Type} [LinearOrder α] [Zero α] {l : List α} {x : α}
    (hx : x ∈ l) : x ≤ listMax l := by
  match l with
  | [] => cases hx
  | y :: ys =>
    simp only [listMax]
    rcases List.mem_cons.mp hx with h | h
    · subst h; exact init_le_foldl_max ys x
    · exact mem_le_foldl_max h y

lemma getD_map {β γ : Type} (f : β → γ) :
    ∀ (l : List β) (i : ℕ), i < l.length → ∀ (d : γ) (e : β),
      (l.map f).getD i d = f (l.getD i e) := by
  intro l
  induction l with
  | nil => intro i hi; simp at hi
  | cons x xs ih =>
    intro i hi d e
    cases i with
    | zero => rfl
    | succ n => exact ih n (by simpa using hi) d e

lemma getD_mem {β : Type} :
    ∀ (l : List β) (i : ℕ), i < l.length → ∀ d, l.getD i d ∈ l := by
  intro l
  induction l with
  | nil => intro i hi; simp at hi
  | cons x xs ih =>
    intro i hi d
    cases i with
    | zero => exact List.mem_cons_self x xs
    | succ n => exact List.mem_cons_of_mem x (ih n (by simpa using hi) d)

lemma map_map_congr {β γ δ : Type} (f : β → γ) (g : γ → δ) (c : β → δ) :
    ∀ (l : List β), (∀ v ∈ l, g (f v) = c v) → (l.map f).map g = l.map c := by
  intro l
  induction l with
  | nil => intro _; rfl
  | cons x xs ih =>
    intro h
    simp only [List.map_cons]
    rw [h x (List.mem_cons_self x xs),
        ih (fun v hv => h v (List.mem_cons_of_mem x hv))]

lemma foldl_max_const {α : Type} [LinearOrder α] {l : List α} {i : α}
    (h : ∀ x ∈ l, x = i) : l.foldl max i = i := by
  induction l with
  | nil => rfl
  | cons x xs ih =>
    have hx : x = i := h x (List.mem_cons_self x xs)
    simp only [List.foldl_cons, hx, max_self]
    exact ih (fun y hy => h y (List.mem_cons_of_mem x hy))

lemma foldl_min_const {α : Type} [LinearOrder α] {l : List α} {i : α}
    (h : ∀ x ∈ l, x = i) : l.foldl min i = i := by
  induction l with
  | nil => rfl
  | cons x xs ih =>
    have hx : x = i := h x (List.mem_cons_self x xs)
    simp only [List.foldl_cons, hx, min_self]
    exact ih (fun y hy => h y (List.mem_cons_of_mem x hy))

lemma listMax_const_zero {α : Type} [LinearOrder α] [Zero α] {l : List α}
    (h : ∀ x ∈ l, x = 0) : listMax l = 0 := by
  match l with
  | [] => rfl
  | y :: ys =>
    have hy : y = 0 := h y (List.mem_cons_self y ys)
    simp only [listMax, hy]
    exact foldl_max_const (fun x hx => h x (List.mem_cons_of_mem y hx))

lemma listMin_const_zero {α : Type} [LinearOrder α] [Zero α] {l : List α}
    (h : ∀ x ∈ l, x = 0) : listMin l = 0 := by
  match l with
  | [] => rfl
  | y :: ys =>
    have hy : y = 0 := h y (List.mem_cons_self y ys)
    simp only [listMin, hy]
    exact foldl_min_const (fun x hx => h x (List.mem_cons_of_mem y hx))

/-! ### Quantization cell bounds -/

lemma quant_cell {α : Type} [LinearOrderedField α] [FloorRing α]
    (x : α) (hx0 : 0 ≤ x) (hx1 : x ≤ 1) (bins : ℕ) (hB : 2 ≤ bins) :
    (min ((bins : ℤ) - 1) (max 0 ⌊x * ((bins : α) - 1)⌋)
      = ⌊x * ((bins : α) - 1)⌋) ∧
    |((⌊x * ((bins : α) - 1)⌋ : α) / ((bins : α) - 1)) - x|
      ≤ 1 / ((bins : α) - 1) := by
  have hB2 : (2 : α) ≤ (bins : α) := by exact_mod_cast hB
  have hBpos : (0 : α) < (bins : α) - 1 := by linarith
  set t : α := x * ((bins : α) - 1) with ht
  have h0t : 0 ≤ t := mul_nonneg hx0 hBpos.le
  have htB : t ≤ (bins : α) - 1 := by
    calc t = x * ((bins : α) - 1) := rfl
    _ ≤ 1 * ((bins : α) - 1) := by
        exact mul_le_mul_of_nonneg_right hx1 hBpos.le
    _ = (bins : α) - 1 := one_mul _
  have hfl0 : 0 ≤ ⌊t⌋ := Int.floor_nonneg.mpr h0t
  have hcast : ((bins : α) - 1) = (((bins : ℤ) - 1 : ℤ) : α) := by
    push_cast; ring
  have hflB : ⌊t⌋ ≤ (bins : ℤ) - 1 := by
    have h1 := Int.floor_le_floor htB
    rwa [hcast, Int.floor_intCast] at h1
  refine ⟨by rw [max_eq_right hfl0, min_eq_right hflB], ?_⟩
  have hfle : (⌊t⌋ : α) ≤ t := Int.floor_le t
  have hflgt : t - 1 < (⌊t⌋ : α) := Int.sub_one_lt_floor t
  have hxeq : x = t / ((bins : α) - 1) := by
    rw [ht, mul_div_assoc, div_self hBpos.ne', mul_one]
  rw [hxeq, div_sub_div_same, abs_div, abs_of_pos hBpos]
  have h2 : |(⌊t⌋ : α) - t| ≤ 1 := by
    rw [abs_of_nonpos (by linarith)]
    linarith
  gcongr

lemma minmax_cell (m M x : ℚ) (hm : m ≤ x) (hM : x ≤ M)
    (bins : ℕ) (hB : 2 ≤ bins) :
    |((min ((bins : ℤ) - 1)
        (max 0 ⌊(x - m) / (if M - m = 0 then 1 else M - m)
          * ((bins : ℚ) - 1)⌋) : ℤ) : ℚ)
        / ((bins : ℚ) - 1) * (M - m) + m - x|
      ≤ (M - m) / ((bins : ℚ) - 1) := by
  have hB2 : (2 : ℚ) ≤ (bins : ℚ) := by exact_mod_cast hB
  have hBpos : (0 : ℚ) < (bins : ℚ) - 1 := by linarith
  have hBz : (0 : ℤ) ≤ (bins : ℤ) - 1 := by
    have : (2 : ℤ) ≤ (bins : ℤ) := by exact_mod_cast hB
    linarith
  by_cases h : M - m = 0
  · have hxm : x = m := le_antisymm (by linarith) hm
    rw [if_pos h, h, hxm]
    simp [min_eq_right hBz]
  · have hRpos : 0 < M - m := lt_of_le_of_ne (by linarith) (Ne.symm h)
    rw [if_neg h]
    set x01 : ℚ := (x - m) / (M - m) with hx01
    have hx0 : 0 ≤ x01 := div_nonneg (by linarith) hRpos.le
    have hx1 : x01 ≤ 1 := by
      rw [hx01, div_le_one hRpos]; linarith
    obtain ⟨hclamp, herr⟩ := quant_cell x01 hx0 hx1 bins hB
    rw [hclamp]
    have hx : x01 * (M - m) + m = x := by
      rw [hx01, div_mul_cancel₀ _ h]; ring
    have key : ((⌊x01 * ((bins : ℚ) - 1)⌋ : ℚ) / ((bins : ℚ) - 1))
        * (M - m) + m - x
        = ((⌊x01 * ((bins : ℚ) - 1)⌋ : ℚ) / ((bins : ℚ) - 1) - x01)
          * (M - m) := by
      rw [← hx]; ring
    rw [key, abs_mul, abs_of_pos hRpos]
    calc |(⌊x01 * ((bins : ℚ) - 1)⌋ : ℚ) / ((bins : ℚ) - 1) - x01| * (M - m)
        ≤ 1 / ((bins : ℚ) - 1) * (M - m) :=
          mul_le_mul_of_nonneg_right herr hRpos.le
    _ = (M - m) / ((bins : ℚ) - 1) := by ring

lemma sphere_cell (cc s v : ℝ) (hs : 0 < s) (hvs : |v - cc| ≤ s)
    (bins : ℕ) (hB : 2 ≤ bins) :
    |(((min ((bins : ℤ) - 1)
        (max 0 ⌊((v - cc) / s + 1) / 2 * ((bins : ℝ) - 1)⌋) : ℤ) : ℝ)
        / ((bins : ℝ) - 1) * 2 - 1) * s + cc - v|
      ≤ 2 * s / ((bins : ℝ) - 1) := by
  have hB2 : (2 : ℝ) ≤ (bins : ℝ) := by exact_mod_cast hB
  have hBpos : (0 : ℝ) < (bins : ℝ) - 1 := by linarith
  have hd1 : (v - cc) / s ≤ 1 := by
    rw [div_le_one hs]; exact (abs_le.mp hvs).2
  have hd2 : -1 ≤ (v - cc) / s := by
    rw [le_div_iff₀ hs]
    have := (abs_le.mp hvs).1; linarith
  set x01 : ℝ := ((v - cc) / s + 1) / 2 with hx01
  have hx0 : 0 ≤ x01 := by rw [hx01]; linarith
  have hx1 : x01 ≤ 1 := by rw [hx01]; linarith
  obtain ⟨hclamp, herr⟩ := quant_cell x01 hx0 hx1 bins hB
  rw [hclamp]
  have hveq : v = (2 * x01 - 1) * s + cc := by
    rw [hx01]
    field_simp
    ring
  have key : ((⌊x01 * ((bins : ℝ) - 1)⌋ : ℝ) / ((bins : ℝ) - 1) * 2 - 1)
      * s + cc - v
      = 2 * ((⌊x01 * ((bins : ℝ) - 1)⌋ : ℝ) / ((bins : ℝ) - 1) - x01)
        * s := by
    rw [hveq]; ring
  rw [key, abs_mul, abs_mul, abs_of_pos hs]
  have h2 : |(2 : ℝ)| = 2 := by norm_num
  rw [h2]
  calc 2 * |(⌊x01 * ((bins : ℝ) - 1)⌋ : ℝ) / ((bins : ℝ) - 1) - x01| * s
      ≤ 2 * (1 / ((bins : ℝ) - 1)) * s := by
        have h3 := mul_le_mul_of_nonneg_right herr hs.le
        nlinarith
  _ = 2 * s / ((bins : ℝ) - 1) := by ring

/-! ### Geometry facts for the unit-sphere method -/

lemma distSq_nonneg (c v : Vec3 ℚ) : 0 ≤ distSq c v := by
  unfold distSq
  positivity

lemma scaleSq_nonneg (V : List (Vec3 ℚ)) : 0 ≤ scaleSq V := by
  cases V with
  | nil => simp [scaleSq, listMax]
  | cons v vs =>
    have hmem : distSq (center (v :: vs)) v ∈
        (v :: vs).map (fun u => distSq (center (v :: vs)) u) :=
      List.mem_map_of_mem _ (List.mem_cons_self v vs)
    exact le_trans (distSq_nonneg _ _) (le_listMax hmem)

lemma distSq_le_scaleSq {V : List (Vec3 ℚ)} {v : Vec3 ℚ} (hv : v ∈ V) :
    distSq (center V) v ≤ scaleSq V :=
  le_listMax (List.mem_map_of_mem _ hv)

lemma axis_sq_le_distSq (c v : Vec3 ℚ) (a : Fin 3) :
    (v a - c a) ^ 2 ≤ distSq c v := by
  unfold distSq
  have h0 := sq_nonneg (v 0 - c 0)
  have h1 := sq_nonneg (v 1 - c 1)
  have h2 := sq_nonneg (v 2 - c 2)
  fin_cases a
  · show (v 0 - c 0) ^ 2 ≤ _
    linarith
  · show (v 1 - c 1) ^ 2 ≤ _
    linarith
  · show (v 2 - c 2) ^ 2 ≤ _
    linarith

lemma sphereScale_pos (V : List (Vec3 ℚ)) : 0 < sphereScale V := by
  unfold sphereScale
  by_cases h : scaleSq V = 0
  · rw [if_pos h]; norm_num
  · rw [if_neg h]
    apply Real.sqrt_pos.mpr
    have h0 := scaleSq_nonneg V
    have hq : (0 : ℚ) < scaleSq V := lt_of_le_of_ne h0 (Ne.symm h)
    exact_mod_cast hq

lemma degenerate_point_eq_center {V : List (Vec3 ℚ)} {v : Vec3 ℚ}
    (hv : v ∈ V) (h : scaleSq V = 0) (a : Fin 3) : v a = center V a := by
  have h1 : (v a - center V a) ^ 2 ≤ scaleSq V :=
    le_trans (axis_sq_le_distSq (center V) v a) (distSq_le_scaleSq hv)
  rw [h] at h1
  have h2 : v a - center V a = 0 := by
    nlinarith [sq_nonneg (v a - center V a)]
  linarith

lemma axis_dist_le_sphereScale {V : List (Vec3 ℚ)} {v : Vec3 ℚ}
    (hv : v ∈ V) (a : Fin 3) :
    |((v a : ℝ)) - ((center V a : ℝ))| ≤ sphereScale V := by
  by_cases h : scaleSq V = 0
  · have h3 := degenerate_point_eq_center hv h a
    have h4 : ((v a : ℝ)) - ((center V a : ℝ)) = 0 := by
      rw [h3]; ring
    rw [sphereScale, if_pos h, h4, abs_zero]
    norm_num
  · have h1 : (v a - center V a) ^ 2 ≤ scaleSq V :=
      le_trans (axis_sq_le_distSq (center V) v a) (distSq_le_scaleSq hv)
    rw [sphereScale, if_neg h]
    have hcast : ((v a : ℝ) - (center V a : ℝ)) ^ 2 ≤ ((scaleSq V : ℚ) : ℝ) := by
      exact_mod_cast h1
    calc |(v a : ℝ) - (center V a : ℝ)|
        = Real.sqrt (((v a : ℝ) - (center V a : ℝ)) ^ 2) :=
          (Real.sqrt_sq_eq_abs _).symm
    _ ≤ Real.sqrt ((scaleSq V : ℚ) : ℝ) := Real.sqrt_le_sqrt hcast

lemma getD_of_le {β : Type} :
    ∀ (l : List β) (i : ℕ), l.length ≤ i → ∀ d, l.getD i d = d := by
  intro l
  induction l with
  | nil => intro i _ d; cases i <;> rfl
  | cons x xs ih =>
    intro i hi d
    cases i with
    | zero => simp at hi
    | succ n => exact ih n (by simpa using hi) d

lemma listMean_zero {l : List ℝ} (h : ∀ x ∈ l, x = 0) : listMean l = 0 := by
  rw [listMean, List.sum_eq_zero h, zero_div]

/-! ### Claim theorems -/

/-- C2: for every VertexSet, `denormalize(normalize(V)) == V` holds
exactly in exact arithmetic for both methods (hence within any
floating-point tolerance); for the unit-sphere method the reconstruction
equals the (real-valued) image of `V`.  The degenerate cases need no
exclusion in exact arithmetic: on a flat axis the substituted range
multiplies a zero numerator, and the substituted sphere scale is `1`. -/
theorem C2_denorm_norm_exact_roundtrip (V : List (Vec3 ℚ)) :
    denormMinmaxCore (normMinmaxCore V) (axisMin V) (axisMax V) = V ∧
    denormSphereCore (normSphereCore V) (center V) (sphereScale V)
      = V.map (fun v a => ((v a : ℚ) : ℝ)) := by
  constructor
  · unfold denormMinmaxCore normMinmaxCore
    have hcongr := map_map_congr
      (fun v a => (v a - axisMin V a) / rangeSubst V a)
      (fun n a => n a * (axisMax V a - axisMin V a) + axisMin V a)
      (fun v => v) V
    rw [hcongr, List.map_id']
    intro v hv
    funext a
    have hmin : axisMin V a ≤ v a := listMin_le (List.mem_map_of_mem _ hv)
    have hmax : v a ≤ axisMax V a := le_listMax (List.mem_map_of_mem _ hv)
    show (v a - axisMin V a) / rangeSubst V a
      * (axisMax V a - axisMin V a) + axisMin V a = v a
    by_cases h : axisMax V a - axisMin V a = 0
    · have hva : v a = axisMin V a := le_antisymm (by linarith) hmin
      rw [rangeSubst, if_pos h, h, hva]
      ring
    · rw [rangeSubst, if_neg h, div_mul_cancel₀ _ h]
      ring
  · unfold denormSphereCore normSphereCore
    apply map_map_congr
    intro v hv
    funext a
    show ((v a : ℝ) - (center V a : ℝ)) / sphereScale V * sphereScale V
      + (center V a : ℝ) = ((v a : ℚ) : ℝ)
    rw [div_mul_cancel₀ _ (sphereScale_pos V).ne']
    ring

/-- C4: every component of the min-max-normalized output lies in `[0, 1]`
on every axis with positive source range, and every unit-sphere-normalized
point has Euclidean norm at most `1` (here even without assuming a nonzero
original scale: the degenerate case normalizes to the origin). -/
theorem C4_range_invariants (V : List (Vec3 ℚ)) (i : ℕ) (a : Fin 3) :
    (0 < axisMax V a - axisMin V a →
      0 ≤ ((normMinmaxCore V).getD i (zero3 ℚ)) a ∧
      ((normMinmaxCore V).getD i (zero3 ℚ)) a ≤ 1) ∧
    Real.sqrt ((((normSphereCore V).getD i (zero3 ℝ)) 0) ^ 2
      + (((normSphereCore V).getD i (zero3 ℝ)) 1) ^ 2
      + (((normSphereCore V).getD i (zero3 ℝ)) 2) ^ 2) ≤ 1 := by
  by_cases hi : i < V.length
  · constructor
    · intro hR
      rw [normMinmaxCore, getD_map _ V i hi (zero3 ℚ) (zero3 ℚ)]
      set v := V.getD i (zero3 ℚ) with hv
      have hvmem : v ∈ V := getD_mem V i hi (zero3 ℚ)
      have hmin : axisMin V a ≤ v a := listMin_le (List.mem_map_of_mem _ hvmem)
      have hmax : v a ≤ axisMax V a := le_listMax (List.mem_map_of_mem _ hvmem)
      have hRS : rangeSubst V a = axisMax V a - axisMin V a := by
        rw [rangeSubst, if_neg hR.ne']
      show 0 ≤ (v a - axisMin V a) / rangeSubst V a ∧
        (v a - axisMin V a) / rangeSubst V a ≤ 1
      rw [hRS]
      constructor
      · exact div_nonneg (by linarith) hR.le
      · rw [div_le_one hR]; linarith
    · rw [normSphereCore, getD_map _ V i hi (zero3 ℝ) (zero3 ℚ)]
      set v := V.getD i (zero3 ℚ) with hv
      have hvmem : v ∈ V := getD_mem V i hi (zero3 ℚ)
      have hσ := sphereScale_pos V
      show Real.sqrt
        ((((v 0 : ℝ) - (center V 0 : ℝ)) / sphereScale V) ^ 2
          + (((v 1 : ℝ) - (center V 1 : ℝ)) / sphereScale V) ^ 2
          + (((v 2 : ℝ) - (center V 2 : ℝ)) / sphereScale V) ^ 2) ≤ 1
      have hsum : (((v 0 : ℝ) - (center V 0 : ℝ)) / sphereScale V) ^ 2
          + (((v 1 : ℝ) - (center V 1 : ℝ)) / sphereScale V) ^ 2
          + (((v 2 : ℝ) - (center V 2 : ℝ)) / sphereScale V) ^ 2
          = ((distSq (center V) v : ℚ) : ℝ) / (sphereScale V) ^ 2 := by
        push_cast [distSq]
        field_simp
      rw [hsum]
      by_cases h : scaleSq V = 0
      · have hD0 : distSq (center V) v = 0 := by
          rw [distSq]
          rw [degenerate_point_eq_center hvmem h 0,
              degenerate_point_eq_center hvmem h 1,
              degenerate_point_eq_center hvmem h 2]
          ring
        rw [hD0]
        norm_num
      · have hS : sphereScale V = Real.sqrt (scaleSq V) := by
          rw [sphereScale, if_neg h]
        have hSpos : (0 : ℝ) < ((scaleSq V : ℚ) : ℝ) := by
          have := lt_of_le_of_ne (scaleSq_nonneg V) (Ne.symm h)
          exact_mod_cast this
        have hsq : (sphereScale V) ^ 2 = ((scaleSq V : ℚ) : ℝ) := by
          rw [hS, Real.sq_sqrt hSpos.le]
        rw [hsq]
        apply Real.sqrt_le_one.mpr
        rw [div_le_one hSpos]
        exact_mod_cast distSq_le_scaleSq hvmem
  · push_neg at hi
    have h1 : (normMinmaxCore V).getD i (zero3 ℚ) = zero3 ℚ := by
      apply getD_of_le
      simpa [normMinmaxCore] using hi
    have h2 : (normSphereCore V).getD i (zero3 ℝ) = zero3 ℝ := by
      apply getD_of_le
      simpa [normSphereCore] using hi
    rw [h1, h2]
    constructor
    · intro _
      constructor
      · exact le_refl 0
      · norm_num [zero3]
    · simp [zero3]

/-- C4 witness: the invariants instantiated on `Vdemo`. -/
theorem C4_range_invariants_witness :
    (0 < axisMax Vdemo 0 - axisMin Vdemo 0) ∧
    (0 ≤ ((normMinmaxCore Vdemo).getD 0 (zero3 ℚ)) 0 ∧
      ((normMinmaxCore Vdemo).getD 0 (zero3 ℚ)) 0 ≤ 1) ∧
    Real.sqrt ((((normSphereCore Vdemo).getD 0 (zero3 ℝ)) 0) ^ 2
      + (((normSphereCore Vdemo).getD 0 (zero3 ℝ)) 1) ^ 2
      + (((normSphereCore Vdemo).getD 0 (zero3 ℝ)) 2) ^ 2) ≤ 1 :=
  ⟨by simp [axisMax, axisMin, listMax, listMin, Vdemo],
    (C4_range_invariants Vdemo 0 0).1
      (by simp [axisMax, axisMin, listMax, listMin, Vdemo]),
    (C4_range_invariants Vdemo 0 0).2⟩

/-- C6: a degenerate axis (flat geometry) or a degenerate scale (all
points coincident) raises no division error: the substituted range (resp.
scale) is `1`, and the normalized value on such an axis is exactly
`vertex[axis] - min[axis]` (resp. `vertex[axis] - center[axis]`). -/
theorem C6_degenerate_handling (V : List (Vec3 ℚ)) (i : ℕ)
    (hi : i < V.length) (a : Fin 3) :
    (axisMax V a = axisMin V a →
      rangeSubst V a = 1 ∧
      ((normMinmaxCore V).getD i (zero3 ℚ)) a
        = (V.getD i (zero3 ℚ)) a - axisMin V a) ∧
    (scaleSq V = 0 →
      sphereScale V = 1 ∧
      ((normSphereCore V).getD i (zero3 ℝ)) a
        = ((V.getD i (zero3 ℚ)) a : ℝ) - (center V a : ℝ)) := by
  constructor
  · intro h
    have hz : axisMax V a - axisMin V a = 0 := by rw [h]; ring
    have hRS : rangeSubst V a = 1 := by rw [rangeSubst, if_pos hz]
    refine ⟨hRS, ?_⟩
    rw [normMinmaxCore, getD_map _ V i hi (zero3 ℚ) (zero3 ℚ)]
    show (V.getD i (zero3 ℚ) a - axisMin V a) / rangeSubst V a = _
    rw [hRS, div_one]
  · intro h
    have hS : sphereScale V = 1 := by rw [sphereScale, if_pos h]
    refine ⟨hS, ?_⟩
    rw [normSphereCore, getD_map _ V i hi (zero3 ℝ) (zero3 ℚ)]
    show ((V.getD i (zero3 ℚ) a : ℝ) - (center V a : ℝ)) / sphereScale V = _
    rw [hS, div_one]

/-- C6 witness: the degenerate handling instantiated on the one-point set
`Vdeg`. -/
theorem C6_degenerate_handling_witness :
    0 < Vdeg.length ∧ axisMax Vdeg 0 = axisMin Vdeg 0 ∧ scaleSq Vdeg = 0 ∧
    (rangeSubst Vdeg 0 = 1 ∧
      ((normMinmaxCore Vdeg).getD 0 (zero3 ℚ)) 0
        = (Vdeg.getD 0 (zero3 ℚ)) 0 - axisMin Vdeg 0) ∧
    (sphereScale Vdeg = 1 ∧
      ((normSphereCore Vdeg).getD 0 (zero3 ℝ)) 0
        = ((Vdeg.getD 0 (zero3 ℚ)) 0 : ℝ) - (center Vdeg 0 : ℝ)) :=
  ⟨by decide, by simp [axisMax, axisMin, listMax, listMin, Vdeg],
    by simp [scaleSq, distSq, center, listMax, Vdeg],
    (C6_degenerate_handling Vdeg 0 (by decide) 0).1
      (by simp [axisMax, axisMin, listMax, listMin, Vdeg]),
    (C6_degenerate_handling Vdeg 0 (by decide) 0).2
      (by simp [scaleSq, distSq, center, listMax, Vdeg])⟩

/-- C9: a parameter record whose tag is not the expected method makes the
corresponding inverse fail with the method-mismatch error, and a matching
tag always succeeds — never undefined behavior. -/
theorem C9_method_mismatch (normalized : List (Vec3 ℚ))
    (normalizedR : List (Vec3 ℝ)) (params : NormParams) :
    (params.method ≠ .minmax →
      denorm_minmax normalized params = .error .methodMismatch) ∧
    (params.method ≠ .sphere →
      denorm_sphere normalizedR params = .error .methodMismatch) ∧
    (params.method = .minmax →
      ∃ out, denorm_minmax normalized params = .ok out) ∧
    (params.method = .sphere →
      ∃ out, denorm_sphere normalizedR params = .ok out) := by
  cases params with
  | mm vmin vmax =>
    exact ⟨fun h => absurd rfl h, fun _ => rfl,
      fun _ => ⟨_, rfl⟩, fun h => by simp [NormParams.method] at h⟩
  | sp c s =>
    exact ⟨fun _ => rfl, fun h => absurd rfl h,
      fun h => by simp [NormParams.method] at h, fun _ => ⟨_, rfl⟩⟩

/-- C9 witness: both mismatch directions at concrete records. -/
theorem C9_method_mismatch_witness :
    NormParams.method (.sp (zero3 ℚ) 1) ≠ .minmax ∧
    denorm_minmax [] (.sp (zero3 ℚ) 1) = .error .methodMismatch ∧
    NormParams.method (.mm (zero3 ℚ) (zero3 ℚ)) ≠ .sphere ∧
    denorm_sphere [] (.mm (zero3 ℚ) (zero3 ℚ)) = .error .methodMismatch :=
  ⟨by decide,
   (C9_method_mismatch [] [] (.sp (zero3 ℚ) 1)).1 (by decide),
   by decide,
   (C9_method_mismatch [] [] (.mm (zero3 ℚ) (zero3 ℚ))).2.1 (by decide)⟩

/-- C5: both normalizers fail with the shape error exactly on inputs that
are not non-empty sequences of strictly 3-component points (the empty set
included), and succeed on every valid input. -/
theorem C5_shape_guard (vs : List (List ℚ)) :
    ((vs = [] ∨ ∃ p ∈ vs, p.length ≠ 3) →
      norm_minmax vs = .error .shape ∧ norm_sphere vs = .error .shape) ∧
    (vs ≠ [] → (∀ p ∈ vs, p.length = 3) →
      (∃ out, norm_minmax vs = .ok out) ∧
      ∃ out, norm_sphere vs = .ok out) := by
  have hiff : shapeOk vs = true ↔ (vs ≠ [] ∧ ∀ p ∈ vs, p.length = 3) := by
    simp [shapeOk, List.isEmpty_iff, List.all_eq_true]
  constructor
  · intro h
    have hfalse : ¬ (shapeOk vs = true) := by
      rw [hiff]
      rcases h with h | ⟨p, hp, hlen⟩
      · rintro ⟨hne, _⟩; exact hne h
      · rintro ⟨_, hall⟩; exact hlen (hall p hp)
    have hf : shapeOk vs = false := by
      cases hsk : shapeOk vs
      · rfl
      · exact absurd hsk hfalse
    constructor <;> simp [norm_minmax, norm_sphere, hf]
  · intro hne hall
    have ht : shapeOk vs = true := hiff.mpr ⟨hne, hall⟩
    constructor
    · refine ⟨(normMinmaxCore (toVerts vs),
        .mm (axisMin (toVerts vs)) (axisMax (toVerts vs))), ?_⟩
      simp [norm_minmax, ht]
    · refine ⟨(normSphereCore (toVerts vs),
        .sp (center (toVerts vs)) (sphereScale (toVerts vs))), ?_⟩
      simp [norm_sphere, ht]

/-- C5 witness: a 2-component point is rejected, a valid single point is
accepted, by both normalizers. -/
theorem C5_shape_guard_witness :
    (norm_minmax [[1, 2]] = .error .shape ∧
      norm_sphere [[1, 2]] = .error .shape) ∧
    ((∃ out, norm_minmax [[1, 2, 3]] = .ok out) ∧
      ∃ out, norm_sphere [[1, 2, 3]] = .ok out) :=
  ⟨(C5_shape_guard [[1, 2]]).1 (Or.inr ⟨[1, 2], by decide, by decide⟩),
   (C5_shape_guard [[1, 2, 3]]).2 (by decide) (by decide)⟩

/-- C3: every component of every quantized point is an integer in
`[0, bins - 1]` for either method (the clamp makes the range
unconditional), so the `RangeError` invariant check of
`process_mesh_file` is unreachable. -/
theorem C3_quantize_range {α : Type} [LinearOrderedField α] [FloorRing α]
    (normalized : List (Vec3 α)) (bins : ℕ) (hB : 2 ≤ bins) (m : Method) :
    (∀ v ∈ quantize normalized bins m, ∀ a,
      0 ≤ v a ∧ v a ≤ (bins : ℤ) - 1) ∧
    rangeViolation (quantize normalized bins m) bins = false := by
  have hBz : (0 : ℤ) ≤ (bins : ℤ) - 1 := by
    have h2 : (2 : ℤ) ≤ (bins : ℤ) := by exact_mod_cast hB
    linarith
  have hbound : ∀ v ∈ quantize normalized bins m, ∀ a,
      0 ≤ v a ∧ v a ≤ (bins : ℤ) - 1 := by
    intro v hv a
    rw [quantize] at hv
    rcases List.mem_map.mp hv with ⟨u, _, huv⟩
    subst huv
    exact ⟨le_min hBz (le_max_left 0 _), min_le_left _ _⟩
  refine ⟨hbound, ?_⟩
  by_contra hneq
  have htrue : rangeViolation (quantize normalized bins m) bins = true := by
    cases h : rangeViolation (quantize normalized bins m) bins
    · exact absurd h hneq
    · rfl
  rw [rangeViolation, List.any_eq_true] at htrue
  rcases htrue with ⟨v, hv, hinner⟩
  rw [List.any_eq_true] at hinner
  rcases hinner with ⟨a, _, hcond⟩
  rw [Bool.or_eq_true, decide_eq_true_eq, decide_eq_true_eq] at hcond
  have hva := hbound v hv a
  rcases hcond with h1 | h1 <;> omega

/-- C3 witness: the range invariant instantiated at a concrete
rational-valued input. -/
theorem C3_quantize_range_witness :
    2 ≤ 4 ∧
    ((∀ v ∈ quantize ([![0, 1/2, 1]] : List (Vec3 ℚ)) 4 .minmax, ∀ a,
        0 ≤ v a ∧ v a ≤ (4 : ℤ) - 1) ∧
      rangeViolation (quantize ([![0, 1/2, 1]] : List (Vec3 ℚ)) 4 .minmax) 4
        = false) :=
  ⟨by decide,
    C3_quantize_range ([![0, 1/2, 1]] : List (Vec3 ℚ)) 4 (by decide) .minmax⟩

/-- C10: on every integer lattice whose components lie in `[0, bins - 1]`,
quantization is a left inverse of dequantization (in exact arithmetic),
for both methods. -/
theorem C10_quantize_left_inverse (q : List (Vec3 ℤ)) (bins : ℕ)
    (hB : 2 ≤ bins) (m : Method)
    (hq : ∀ v ∈ q, ∀ a, 0 ≤ v a ∧ v a ≤ (bins : ℤ) - 1) :
    quantize (dequantize q bins m : List (Vec3 ℚ)) bins m = q := by
  have hB2 : (2 : ℚ) ≤ (bins : ℚ) := by exact_mod_cast hB
  have hBpos : (0 : ℚ) < (bins : ℚ) - 1 := by linarith
  unfold quantize dequantize
  refine (map_map_congr _ _ (fun v => v) q ?_).trans (List.map_id' q)
  intro v hv
  funext a
  cases m with
  | minmax =>
    show min ((bins : ℤ) - 1)
      (max 0 ⌊(v a : ℚ) / ((bins : ℚ) - 1) * ((bins : ℚ) - 1)⌋) = v a
    rw [div_mul_cancel₀ _ hBpos.ne', Int.floor_intCast,
        max_eq_right (hq v hv a).1, min_eq_right (hq v hv a).2]
  | sphere =>
    show min ((bins : ℤ) - 1)
      (max 0 ⌊((v a : ℚ) / ((bins : ℚ) - 1) * 2 - 1 + 1) / 2
        * ((bins : ℚ) - 1)⌋) = v a
    have h1 : ((v a : ℚ) / ((bins : ℚ) - 1) * 2 - 1 + 1) / 2
        = (v a : ℚ) / ((bins : ℚ) - 1) := by ring
    rw [h1, div_mul_cancel₀ _ hBpos.ne', Int.floor_intCast,
        max_eq_right (hq v hv a).1, min_eq_right (hq v hv a).2]

/-- C10 witness: the left inverse instantiated on a concrete lattice. -/
theorem C10_quantize_left_inverse_witness :
    2 ≤ 4 ∧
    (∀ v ∈ ([![0, 1, 3]] : List (Vec3 ℤ)), ∀ a,
      0 ≤ v a ∧ v a ≤ (4 : ℤ) - 1) ∧
    quantize (dequantize ([![0, 1, 3]] : List (Vec3 ℤ)) 4 .sphere
      : List (Vec3 ℚ)) 4 .sphere = [![0, 1, 3]] :=
  ⟨by decide, by decide,
    C10_quantize_left_inverse [![0, 1, 3]] 4 (by decide) .sphere (by decide)⟩

/-- C7: the concrete scenario of the spec, evaluated exactly:
min-max parameters `v_min = (-1, 0, 0)`, `v_max = (2, 2, 3/2)`,
`normalized[0] = (1/3, 0, 0)`; with `bins = 1024`,
`quantize(normalized)[0] = (341, 0, 0)`, dequantizing gives
`(341/1023, 0, 0)`, and denormalizing reconstructs vertex 0 as
`(0, 0, 0)` (exactly, in exact arithmetic). -/
theorem C7_concrete_scenario :
    axisMin V7 0 = -1 ∧ axisMin V7 1 = 0 ∧ axisMin V7 2 = 0 ∧
    axisMax V7 0 = 2 ∧ axisMax V7 1 = 2 ∧ axisMax V7 2 = 3/2 ∧
    (normMinmaxCore V7).getD 0 (zero3 ℚ) 0 = 1/3 ∧
    (normMinmaxCore V7).getD 0 (zero3 ℚ) 1 = 0 ∧
    (normMinmaxCore V7).getD 0 (zero3 ℚ) 2 = 0 ∧
    (quantize (normMinmaxCore V7) 1024 .minmax).getD 0 (zero3 ℤ) 0 = 341 ∧
    (quantize (normMinmaxCore V7) 1024 .minmax).getD 0 (zero3 ℤ) 1 = 0 ∧
    (quantize (normMinmaxCore V7) 1024 .minmax).getD 0 (zero3 ℤ) 2 = 0 ∧
    (dequantize (quantize (normMinmaxCore V7) 1024 .minmax) 1024 .minmax
      : List (Vec3 ℚ)).getD 0 (zero3 ℚ) 0 = 341/1023 ∧
    (dequantize (quantize (normMinmaxCore V7) 1024 .minmax) 1024 .minmax
      : List (Vec3 ℚ)).getD 0 (zero3 ℚ) 1 = 0 ∧
    (dequantize (quantize (normMinmaxCore V7) 1024 .minmax) 1024 .minmax
      : List (Vec3 ℚ)).getD 0 (zero3 ℚ) 2 = 0 ∧
    (denormMinmaxCore
      (dequantize (quantize (normMinmaxCore V7) 1024 .minmax) 1024 .minmax)
      (axisMin V7) (axisMax V7)).getD 0 (zero3 ℚ) 0 = 0 ∧
    (denormMinmaxCore
      (dequantize (quantize (normMinmaxCore V7) 1024 .minmax) 1024 .minmax)
      (axisMin V7) (axisMax V7)).getD 0 (zero3 ℚ) 1 = 0 ∧
    (denormMinmaxCore
      (dequantize (quantize (normMinmaxCore V7) 1024 .minmax) 1024 .minmax)
      (axisMin V7) (axisMax V7)).getD 0 (zero3 ℚ) 2 = 0 := by
  have hlen7 : 0 < V7.length := by norm_num [V7]
  have hlenN : 0 < (normMinmaxCore V7).length := by
    simp [normMinmaxCore, V7]
  have hlenQ : 0 < (quantize (normMinmaxCore V7) 1024 .minmax).length := by
    simp [quantize, normMinmaxCore, V7]
  have hlenD : 0 < (dequantize (quantize (normMinmaxCore V7) 1024 .minmax)
      1024 .minmax : List (Vec3 ℚ)).length := by
    simp [dequantize, quantize, normMinmaxCore, V7]
  have hm0 : axisMin V7 0 = -1 := by norm_num [axisMin, listMin, V7, min_def]
  have hm1 : axisMin V7 1 = 0 := by norm_num [axisMin, listMin, V7, min_def]
  have hm2 : axisMin V7 2 = 0 := by norm_num [axisMin, listMin, V7, min_def]
  have hM0 : axisMax V7 0 = 2 := by norm_num [axisMax, listMax, V7, max_def]
  have hM1 : axisMax V7 1 = 2 := by norm_num [axisMax, listMax, V7, max_def]
  have hM2 : axisMax V7 2 = 3/2 := by norm_num [axisMax, listMax, V7, max_def]
  have hN : ∀ a : Fin 3, (normMinmaxCore V7).getD 0 (zero3 ℚ) a
      = (V7.getD 0 (zero3 ℚ) a - axisMin V7 a) / rangeSubst V7 a := by
    intro a
    rw [normMinmaxCore, getD_map _ V7 0 hlen7 (zero3 ℚ) (zero3 ℚ)]
  have hN0 : (normMinmaxCore V7).getD 0 (zero3 ℚ) 0 = 1/3 := by
    rw [hN 0, rangeSubst, hm0, hM0]
    norm_num [V7]
  have hN1 : (normMinmaxCore V7).getD 0 (zero3 ℚ) 1 = 0 := by
    rw [hN 1, rangeSubst, hm1, hM1]
    norm_num [V7]
  have hN2 : (normMinmaxCore V7).getD 0 (zero3 ℚ) 2 = 0 := by
    rw [hN 2, rangeSubst, hm2, hM2]
    norm_num [V7]
  have hQ : ∀ a : Fin 3,
      (quantize (normMinmaxCore V7) 1024 .minmax).getD 0 (zero3 ℤ) a
      = min (((1024 : ℕ) : ℤ) - 1)
          (max 0 ⌊(normMinmaxCore V7).getD 0 (zero3 ℚ) a
            * (((1024 : ℕ) : ℚ) - 1)⌋) := by
    intro a
    rw [quantize, getD_map _ _ 0 hlenN (zero3 ℤ) (zero3 ℚ)]
  have hQ0 : (quantize (normMinmaxCore V7) 1024 .minmax).getD 0 (zero3 ℤ) 0
      = 341 := by
    rw [hQ 0, hN0]
    norm_num [min_def, max_def]
  have hQ1 : (quantize (normMinmaxCore V7) 1024 .minmax).getD 0 (zero3 ℤ) 1
      = 0 := by
    rw [hQ 1, hN1]
    norm_num [min_def, max_def]
  have hQ2 : (quantize (normMinmaxCore V7) 1024 .minmax).getD 0 (zero3 ℤ) 2
      = 0 := by
    rw [hQ 2, hN2]
    norm_num [min_def, max_def]
  have hD : ∀ a : Fin 3,
      (dequantize (quantize (normMinmaxCore V7) 1024 .minmax) 1024 .minmax
        : List (Vec3 ℚ)).getD 0 (zero3 ℚ) a
      = ((quantize (normMinmaxCore V7) 1024 .minmax).getD 0 (zero3 ℤ) a : ℚ)
          / (((1024 : ℕ) : ℚ) - 1) := by
    intro a
    rw [dequantize, getD_map _ _ 0 hlenQ (zero3 ℚ) (zero3 ℤ)]
  have hD0 : (dequantize (quantize (normMinmaxCore V7) 1024 .minmax)
      1024 .minmax : List (Vec3 ℚ)).getD 0 (zero3 ℚ) 0 = 341/1023 := by
    rw [hD 0, hQ0]
    norm_num
  have hD1 : (dequantize (quantize (normMinmaxCore V7) 1024 .minmax)
      1024 .minmax : List (Vec3 ℚ)).getD 0 (zero3 ℚ) 1 = 0 := by
    rw [hD 1, hQ1]
    norm_num
  have hD2 : (dequantize (quantize (normMinmaxCore V7) 1024 .minmax)
      1024 .minmax : List (Vec3 ℚ)).getD 0 (zero3 ℚ) 2 = 0 := by
    rw [hD 2, hQ2]
    norm_num
  have hR : ∀ a : Fin 3,
      (denormMinmaxCore
        (dequantize (quantize (normMinmaxCore V7) 1024 .minmax) 1024 .minmax)
        (axisMin V7) (axisMax V7)).getD 0 (zero3 ℚ) a
      = (dequantize (quantize (normMinmaxCore V7) 1024 .minmax) 1024 .minmax
          : List (Vec3 ℚ)).getD 0 (zero3 ℚ) a * (axisMax V7 a - axisMin V7 a)
        + axisMin V7 a := by
    intro a
    rw [denormMinmaxCore, getD_map _ _ 0 hlenD (zero3 ℚ) (zero3 ℚ)]
  have hR0 : (denormMinmaxCore
      (dequantize (quantize (normMinmaxCore V7) 1024 .minmax) 1024 .minmax)
      (axisMin V7) (axisMax V7)).getD 0 (zero3 ℚ) 0 = 0 := by
    rw [hR 0, hD0, hm0, hM0]
    norm_num
  have hR1 : (denormMinmaxCore
      (dequantize (quantize (normMinmaxCore V7) 1024 .minmax) 1024 .minmax)
      (axisMin V7) (axisMax V7)).getD 0 (zero3 ℚ) 1 = 0 := by
    rw [hR 1, hD1, hm1, hM1]
    norm_num
  have hR2 : (denormMinmaxCore
      (dequantize (quantize (normMinmaxCore V7) 1024 .minmax) 1024 .minmax)
      (axisMin V7) (axisMax V7)).getD 0 (zero3 ℚ) 2 = 0 := by
    rw [hR 2, hD2, hm2, hM2]
    norm_num
  exact ⟨hm0, hm1, hm2, hM0, hM1, hM2, hN0, hN1, hN2, hQ0, hQ1, hQ2,
    hD0, hD1, hD2, hR0, hR1, hR2⟩

/-- C1: per-axis world-space error of the full
normalize → quantize → dequantize → denormalize chain is bounded by
`range[a] / (bins - 1)` for min-max and by `2 * scale / (bins - 1)` for
the unit sphere, where `scale` is the (substituted) scale stored in the
parameter record and used by `denorm_sphere`.  Exact arithmetic gives the
bounds with no floating-point slack at all. -/
theorem C1_quantized_roundtrip_error_bound (V : List (Vec3 ℚ)) (bins : ℕ)
    (hB : 2 ≤ bins) (i : ℕ) (hi : i < V.length) (a : Fin 3) :
    |((denormMinmaxCore
        (dequantize (quantize (normMinmaxCore V) bins .minmax) bins .minmax)
        (axisMin V) (axisMax V)).getD i (zero3 ℚ)) a
      - (V.getD i (zero3 ℚ)) a|
      ≤ (axisMax V a - axisMin V a) / ((bins : ℚ) - 1) ∧
    |((denormSphereCore
        (dequantize (quantize (normSphereCore V) bins .sphere) bins .sphere)
        (center V) (sphereScale V)).getD i (zero3 ℝ)) a
      - ((V.getD i (zero3 ℚ)) a : ℝ)|
      ≤ 2 * sphereScale V / ((bins : ℝ) - 1) := by
  have hv : V.getD i (zero3 ℚ) ∈ V := getD_mem V i hi (zero3 ℚ)
  constructor
  · have hmin : axisMin V a ≤ V.getD i (zero3 ℚ) a :=
      listMin_le (List.mem_map_of_mem _ hv)
    have hmax : V.getD i (zero3 ℚ) a ≤ axisMax V a :=
      le_listMax (List.mem_map_of_mem _ hv)
    rw [denormMinmaxCore, dequantize, quantize, normMinmaxCore,
        List.map_map, List.map_map, List.map_map,
        getD_map _ V i hi (zero3 ℚ) (zero3 ℚ)]
    exact minmax_cell (axisMin V a) (axisMax V a)
      (V.getD i (zero3 ℚ) a) hmin hmax bins hB
  · have hs := sphereScale_pos V
    have hvs := axis_dist_le_sphereScale hv a
    rw [denormSphereCore, dequantize, quantize, normSphereCore,
        List.map_map, List.map_map, List.map_map,
        getD_map _ V i hi (zero3 ℝ) (zero3 ℚ)]
    exact sphere_cell ((center V a : ℝ)) (sphereScale V)
      ((V.getD i (zero3 ℚ) a : ℝ)) hs hvs bins hB

/-- C1 witness: the bound instantiated on `Vdemo` with `bins = 4`. -/
theorem C1_quantized_roundtrip_error_bound_witness :
    2 ≤ 4 ∧ 0 < Vdemo.length ∧
    (|((denormMinmaxCore
        (dequantize (quantize (normMinmaxCore Vdemo) 4 .minmax) 4 .minmax)
        (axisMin Vdemo) (axisMax Vdemo)).getD 0 (zero3 ℚ)) 0
      - (Vdemo.getD 0 (zero3 ℚ)) 0|
      ≤ (axisMax Vdemo 0 - axisMin Vdemo 0) / (((4 : ℕ) : ℚ) - 1) ∧
    |((denormSphereCore
        (dequantize (quantize (normSphereCore Vdemo) 4 .sphere) 4 .sphere)
        (center Vdemo) (sphereScale Vdemo)).getD 0 (zero3 ℝ)) 0
      - ((Vdemo.getD 0 (zero3 ℚ)) 0 : ℝ)|
      ≤ 2 * sphereScale Vdemo / (((4 : ℕ) : ℝ) - 1)) :=
  ⟨by decide, by decide,
    C1_quantized_roundtrip_error_bound Vdemo 4 (by decide) 0 (by decide) 0⟩

/-- C8: `compute_errors` rejects mismatched lengths, succeeds on any
equal-length pair, and on identical inputs every reported metric (total
and per-axis MSE/MAE, max, min, population std, and every per-vertex
error) is exactly zero. -/
theorem C8_compute_errors_self_zero (V W : List (Vec3 ℝ)) :
    (V.length ≠ W.length → compute_errors V W = .error .shape) ∧
    (V.length = W.length →
      compute_errors V W = .ok (computeErrorsCore V W)) ∧
    (compute_errors V V = .ok (computeErrorsCore V V) ∧
      (computeErrorsCore V V).mse_total = 0 ∧
      (computeErrorsCore V V).mae_total = 0 ∧
      (∀ a, (computeErrorsCore V V).mse_per_axis a = 0) ∧
      (∀ a, (computeErrorsCore V V).mae_per_axis a = 0) ∧
      (computeErrorsCore V V).max_error = 0 ∧
      (computeErrorsCore V V).min_error = 0 ∧
      (computeErrorsCore V V).std_error = 0 ∧
      ∀ e ∈ (computeErrorsCore V V).per_vertex_error, e = 0) := by
  have hdiff : ∀ d ∈ List.zipWith (fun o r => (fun a => o a - r a : Vec3 ℝ))
      V V, ∀ a, d a = (0 : ℝ) := by
    rw [List.zipWith_same]
    intro d hd a
    rcases List.mem_map.mp hd with ⟨v, _, hvd⟩
    subst hvd
    show v a - v a = 0
    ring
  have hentries : ∀ t ∈ ((List.zipWith
      (fun o r => (fun a => o a - r a : Vec3 ℝ)) V V).map
      (fun d => [d 0, d 1, d 2])).flatten, t = (0 : ℝ) := by
    intro t ht
    rcases List.mem_flatten.mp ht with ⟨l, hl, htl⟩
    rcases List.mem_map.mp hl with ⟨d, hd, hdl⟩
    subst hdl
    have h3 : t = d 0 ∨ t = d 1 ∨ t = d 2 := by
      simpa using htl
    rcases h3 with h | h | h <;> rw [h] <;> exact hdiff d hd _
  have hpve : ∀ e ∈ (List.zipWith
      (fun o r => (fun a => o a - r a : Vec3 ℝ)) V V).map
      (fun d => Real.sqrt (d 0 ^ 2 + d 1 ^ 2 + d 2 ^ 2)), e = (0 : ℝ) := by
    intro e he
    rcases List.mem_map.mp he with ⟨d, hd, hde⟩
    subst hde
    rw [hdiff d hd 0, hdiff d hd 1, hdiff d hd 2]
    simp
  refine ⟨?_, ?_, ?_, ?_, ?_, ?_, ?_, ?_, ?_, ?_, hpve⟩
  · intro h
    rw [compute_errors, if_neg h]
  · intro h
    rw [compute_errors, if_pos h]
  · rw [compute_errors, if_pos rfl]
  · show listMean ((((List.zipWith
      (fun o r => (fun a => o a - r a : Vec3 ℝ)) V V).map
      (fun d => [d 0, d 1, d 2])).flatten).map (fun t => t ^ 2)) = 0
    apply listMean_zero
    intro x hx
    rcases List.mem_map.mp hx with ⟨t, ht, htx⟩
    subst htx
    rw [hentries t ht]
    norm_num
  · show listMean ((((List.zipWith
      (fun o r => (fun a => o a - r a : Vec3 ℝ)) V V).map
      (fun d => [d 0, d 1, d 2])).flatten).map (fun t => |t|)) = 0
    apply listMean_zero
    intro x hx
    rcases List.mem_map.mp hx with ⟨t, ht, htx⟩
    subst htx
    rw [hentries t ht]
    norm_num
  · intro a
    show listMean ((List.zipWith
      (fun o r => (fun a => o a - r a : Vec3 ℝ)) V V).map
      (fun d => d a ^ 2)) = 0
    apply listMean_zero
    intro x hx
    rcases List.mem_map.mp hx with ⟨d, hd, hdx⟩
    subst hdx
    rw [hdiff d hd a]
    norm_num
  · intro a
    show listMean ((List.zipWith
      (fun o r => (fun a => o a - r a : Vec3 ℝ)) V V).map
      (fun d => |d a|)) = 0
    apply listMean_zero
    intro x hx
    rcases List.mem_map.mp hx with ⟨d, hd, hdx⟩
    subst hdx
    rw [hdiff d hd a]
    norm_num
  · exact listMax_const_zero hpve
  · exact listMin_const_zero hpve
  · show Real.sqrt (listMean (((List.zipWith
      (fun o r => (fun a => o a - r a : Vec3 ℝ)) V V).map
      (fun d => Real.sqrt (d 0 ^ 2 + d 1 ^ 2 + d 2 ^ 2))).map
      (fun x => (x - listMean ((List.zipWith
        (fun o r => (fun a => o a - r a : Vec3 ℝ)) V V).map
        (fun d => Real.sqrt (d 0 ^ 2 + d 1 ^ 2 + d 2 ^ 2)))) ^ 2))) = 0
    have hmean := listMean_zero hpve
    have hzero : listMean (((List.zipWith
      (fun o r => (fun a => o a - r a : Vec3 ℝ)) V V).map
      (fun d => Real.sqrt (d 0 ^ 2 + d 1 ^ 2 + d 2 ^ 2))).map
      (fun x => (x - listMean ((List.zipWith
        (fun o r => (fun a => o a - r a : Vec3 ℝ)) V V).map
        (fun d => Real.sqrt (d 0 ^ 2 + d 1 ^ 2 + d 2 ^ 2)))) ^ 2)) = 0 := by
      apply listMean_zero
      intro x hx
      rcases List.mem_map.mp hx with ⟨e, he, hex⟩
      subst hex
      rw [hpve e he, hmean]
      norm_num
    rw [hzero, Real.sqrt_zero]

/-- C8 witness: the shape guard and the all-zero self-comparison at a
concrete one-point input. -/
theorem C8_compute_errors_self_zero_witness :
    compute_errors [zero3 ℝ] [] = .error .shape ∧
    compute_errors [zero3 ℝ] [zero3 ℝ]
      = .ok (computeErrorsCore [zero3 ℝ] [zero3 ℝ]) ∧
    (computeErrorsCore [zero3 ℝ] [zero3 ℝ]).mse_total = 0 :=
  ⟨(C8_compute_errors_self_zero [zero3 ℝ] []).1 (by decide),
   (C8_compute_errors_self_zero [zero3 ℝ] [zero3 ℝ]).2.1 rfl,
   (C8_compute_errors_self_zero [zero3 ℝ] [zero3 ℝ]).2.2.2.1⟩
